import Mathlib

/-!
Verification of the Collabo collaboration-analytics core, shallowly embedded
from the repository sources:
  src/data_generation/generate_synthetic.py  (affinity-weighted generator)
  src/processing/interaction_matrix.py       (graph builder / adjacency list)
  src/analysis/compute_metrics.py            (node / edge / team metrics)
  src/analysis/detect_patterns.py            (pattern & role-mismatch detector)
Python floats are modelled as exact rationals, pandas tables as lists of
records, and the seeded pseudo-random generator as an abstract deterministic
stream of naturals consumed one value per library draw (the library's
distribution internals are outside the repository; only determinism and the
value ranges visible in the source are modelled).  Fallible library calls
(networkx raising on degenerate graphs, pandas .iloc on an empty selection)
are modelled with Except / Option.
-/

namespace Collabo

/-- Timestamps: `datetime(day.year, day.month, day.day, hour, minute, second)`;
the calendar date is modelled as an integer day number. -/
structure Ts where
  day : ℤ
  hour : ℕ
  minute : ℕ
  second : ℕ
deriving DecidableEq

/-- One row of the interaction log (generator output / clean_interactions). -/
structure Interaction where
  ts : Ts
  teamId : String
  source : String
  target : Option String
  itype : String
  platform : String
  weight : ℚ
  content : String
deriving DecidableEq

/-- One row of adj_list.csv produced by build_interaction_matrix. -/
structure Edge where
  source : String
  target : String
  count : ℕ
  weight : ℚ
deriving DecidableEq

/-- One row of the generator's task table.  `completed_by` / `completed_at`
are absent until a task_complete event fills them in.  The uuid-based
`task_id` is drawn from the (unseeded) OS entropy pool and is referenced by
no analysis code, so it is not modelled. -/
structure Task where
  teamId : String
  assignedBy : String
  assignedTo : String
  assignedAt : Ts
  dueDate : Ts
  status : String
  completedBy : Option String
  completedAt : Option Ts
deriving DecidableEq

/-- `round(x, 3)` on an exact rational (ties are immaterial to the claims). -/
def round3 (x : ℚ) : ℚ := (round (x * 1000) : ℤ) / 1000

/-- A raw pseudo-random draw mapped into `[0, 1)`, standing for
`random.random()`; the seeded stream itself is a parameter. -/
def randFloat (n : ℕ) : ℚ := ((n % 1000000 : ℕ) : ℚ) / 1000000

/-- INTERACTION_TYPES from generate_synthetic.py. -/
def INTERACTION_TYPES : List String :=
  ["message", "reply", "task_assign", "task_complete", "comment", "review"]

/-- PLATFORMS from generate_synthetic.py. -/
def PLATFORMS : List String :=
  ["slack", "whatsapp", "github", "trello", "googledocs"]

/-- The literal base_weight dictionary lookup with default 1.0
(generate_synthetic.py lines 202-209). -/
def base_weight (itype : String) : ℚ :=
  if itype = "message" then 1
  else if itype = "reply" then 12/10
  else if itype = "task_assign" then 21/10
  else if itype = "task_complete" then 26/10
  else if itype = "comment" then 13/10
  else if itype = "review" then 18/10
  else 1

/-! ## Graph builder: src/processing/interaction_matrix.py -/

/-- `df.dropna(subset=["target"])`: rows with a present target. -/
def validRows (log : List Interaction) : List Interaction :=
  log.filter (fun i => i.target.isSome)

/-- Insertion into a sorted string list (for Python's `sorted`). -/
def insertSorted (x : String) : List String → List String
  | [] => [x]
  | y :: ys => if x ≤ y then x :: y :: ys else y :: insertSorted x ys

/-- Insertion sort on strings, modelling Python's `sorted`. -/
def sortStrings : List String → List String
  | [] => []
  | x :: xs => insertSorted x (sortStrings xs)

/-- `members = sorted(set(df_valid.source) | set(df_valid.target))`. -/
def matrixMembers (log : List Interaction) : List String :=
  sortStrings (((validRows log).map (fun i => i.source) ++
    (validRows log).filterMap (fun i => i.target)).dedup)

/-- `matrix.loc[src, tgt]`: count of valid rows for the ordered pair. -/
def countPair (log : List Interaction) (s t : String) : ℕ :=
  ((validRows log).filter (fun i => i.source == s && i.target == some t)).length

/-- `weighted.loc[src, tgt]`: summed weight of valid rows for the pair. -/
def weightPair (log : List Interaction) (s t : String) : ℚ :=
  (((validRows log).filter (fun i => i.source == s && i.target == some t)).map
    (fun i => i.weight)).sum

/-- adj_list.csv: for every ordered member pair with a positive count, one
row carrying the count and the 3-decimal rounded summed weight
(interaction_matrix.py lines 46-56). -/
def adjList (log : List Interaction) : List Edge :=
  (matrixMembers log).flatMap (fun s =>
    (matrixMembers log).filterMap (fun t =>
      if 0 < countPair log s t then
        some ⟨s, t, countPair log s t, round3 (weightPair log s t)⟩
      else none))

/-! ## Metrics engine: src/analysis/compute_metrics.py -/

/-- Node set of the nx.DiGraph built in compute_metrics.py lines 76-84:
every member is added as a node, and add_edge adds edge endpoints. -/
def graphNodes (membersL : List String) (adj : List Edge) : List String :=
  (membersL ++ adj.flatMap (fun e => [e.source, e.target])).dedup

/-- `groupby(key).size()`: association of each occurring key to its count. -/
def groupCount (keys : List String) : List (String × ℕ) :=
  keys.dedup.map (fun k => (k, (keys.filter (fun x => x == k)).length))

/-- `groupby(key)[col].sum()`: association of each key to its summed value. -/
def groupSum (rows : List (String × ℚ)) : List (String × ℚ) :=
  (rows.map (fun r => r.1)).dedup.map (fun k =>
    (k, ((rows.filter (fun r => r.1 == k)).map (fun r => r.2)).sum))

/-- Left-merge of a grouped count onto a member id with `.fillna(0)`. -/
def colDN (tbl : List (String × ℕ)) (m : String) : ℕ :=
  ((tbl.find? (fun r => r.1 == m)).map (fun r => r.2)).getD 0

/-- Left-merge of a grouped sum onto a member id with `.fillna(0)`. -/
def colD (tbl : List (String × ℚ)) (m : String) : ℚ :=
  ((tbl.find? (fun r => r.1 == m)).map (fun r => r.2)).getD 0

/-- total_sent: `clean_interactions.groupby("source").size()`, merged with
fillna(0) (compute_metrics.py lines 27-34); broadcasts are included. -/
def total_sent (log : List Interaction) (m : String) : ℕ :=
  colDN (groupCount (log.map (fun i => i.source))) m

/-- total_received: rows with a present target grouped by target
(compute_metrics.py lines 39-47). -/
def total_received (log : List Interaction) (m : String) : ℕ :=
  colDN (groupCount (log.filterMap (fun i => i.target))) m

/-- weighted_sent: `adj_list.groupby("source")["weight"].sum()`, merged with
fillna(0) (compute_metrics.py lines 52-59). -/
def weighted_sent (adj : List Edge) (m : String) : ℚ :=
  colD (groupSum (adj.map (fun e => (e.source, e.weight)))) m

/-- weighted_received: `adj_list.groupby("target")["weight"].sum()`, merged
with fillna(0) (compute_metrics.py lines 64-71). -/
def weighted_received (adj : List Edge) (m : String) : ℚ :=
  colD (groupSum (adj.map (fun e => (e.target, e.weight)))) m

/-- activity_score (compute_metrics.py lines 104-108). -/
def activity_score (log : List Interaction) (adj : List Edge) (m : String) : ℚ :=
  (total_sent log m : ℚ) * (4/10) + (total_received log m : ℚ) * (2/10) +
    weighted_sent adj m * (4/10)

/-! ### networkx team-level metrics (compute_metrics.py lines 134-140).
The called library functions are modelled from the networkx sources. -/

/-- nx.density: `0` when there are no edges or at most one node, else
`m / (n (n-1))` on a directed graph. -/
def nxDensity (n m : ℕ) : ℚ :=
  if m = 0 ∨ n ≤ 1 then 0 else (m : ℚ) / ((n : ℚ) * ((n : ℚ) - 1))

/-- Undirected projection of a directed edge list: distinct unordered pairs. -/
def undirectedEdges (edges : List (String × String)) : List (String × String) :=
  (edges.map (fun e => if e.1 ≤ e.2 then e else (e.2, e.1))).dedup

/-- nx.overall_reciprocity: raises NetworkXError on a graph with zero edges,
else `(m - m_undirected) * 2 / m`. -/
def nxReciprocity (edges : List (String × String)) : Except String ℚ :=
  let nAll := edges.length
  let nOverlap : ℤ := ((nAll : ℤ) - (undirectedEdges edges).length) * 2
  if nAll = 0 then .error ("Not defined for empty graphs")
  else .ok ((nOverlap : ℚ) / (nAll : ℚ))

/-- Undirected adjacency test on a list of (already deduplicated) edges. -/
def hasEdgeU (edges : List (String × String)) (u v : String) : Bool :=
  edges.any (fun e => (e.1 == u && e.2 == v) || (e.1 == v && e.2 == u))

/-- Neighbours of `u` in the undirected projection, self excluded, as in
networkx's triangle counting. -/
def neighborsU (edges : List (String × String)) (nodes : List String)
    (u : String) : List String :=
  nodes.filter (fun v => v != u && hasEdgeU edges u v)

/-- Number of adjacent unordered pairs inside a node list (triangle count
through a fixed node once the list is its neighbourhood). -/
def countAdjPairs (edges : List (String × String)) : List String → ℕ
  | [] => 0
  | v :: vs => (vs.filter (fun w => hasEdgeU edges v w)).length + countAdjPairs edges vs

/-- Unweighted local clustering coefficient of one node. -/
def clusteringCoeff (edges : List (String × String)) (nodes : List String)
    (u : String) : ℚ :=
  let k := (neighborsU edges nodes u).length
  if k ≤ 1 then 0
  else (2 * (countAdjPairs edges (neighborsU edges nodes u)) : ℚ) /
    ((k : ℚ) * ((k : ℚ) - 1))

/-- nx.average_clustering on the undirected projection: mean of the local
coefficients; ZeroDivisionError on a graph without nodes. -/
def nxAverageClustering (nodes : List String) (edges : List (String × String)) :
    Except String ℚ :=
  if nodes.length = 0 then .error ("division by zero")
  else .ok ((nodes.map (clusteringCoeff (undirectedEdges edges) nodes)).sum /
    (nodes.length : ℚ))

/-- team_metrics.json contents. -/
structure TeamMetrics where
  density : ℚ
  reciprocity : ℚ
  numNodes : ℕ
  numEdges : ℕ
  averageClustering : ℚ
deriving DecidableEq

/-- The team_metrics dict of compute_metrics.py lines 134-140, evaluated in
source order (density, then reciprocity, then clustering); a raising
networkx call aborts the computation. -/
def team_metrics (membersL : List String) (adj : List Edge) :
    Except String TeamMetrics :=
  let nodes := graphNodes membersL adj
  let edges := (adj.map (fun e => (e.source, e.target))).dedup
  match nxReciprocity edges with
  | .error e => .error e
  | .ok recip =>
    match nxAverageClustering nodes edges with
    | .error e => .error e
    | .ok clus =>
      .ok ⟨nxDensity nodes.length edges.length, recip, nodes.length,
        edges.length, clus⟩

/-! ## Pattern detector: src/analysis/detect_patterns.py -/

/-- One row of clean_members.csv, as read by detect_patterns.py. -/
structure Member where
  memberId : String
  role : String
deriving DecidableEq

/-- One row of node_metrics.csv, restricted to the columns the role-mismatch
check reads. -/
structure NodeMetric where
  memberId : String
  totalReceived : ℚ
  degreeCentrality : ℚ
  activityScore : ℚ
deriving DecidableEq

/-- pandas `.mean()`: sum divided by row count. -/
def meanQ (l : List ℚ) : ℚ := l.sum / (l.length : ℚ)

/-- The three human-readable reasons of detect_patterns.py lines 100-109. -/
def reasonCentrality : String :=
  "Leader has low degree centrality (not well-connected)."

/-- Reason appended when the leader is unusually inactive. -/
def reasonInactive : String := "Leader is unusually inactive."

/-- Reason appended when the leader receives unusually little communication. -/
def reasonLowReceived : String := "Leader receives unusually low communication."

/-- Role-mismatch detection (detect_patterns.py lines 91-111): skipped with
an empty reasons list when no member has role leader; otherwise the first
leader row is taken, its metrics row is looked up (`.iloc[0]` raises when the
selection is empty, modelled as `none`), and one reason is appended per
satisfied condition. -/
def role_mismatch (membersT : List Member) (nm : List NodeMetric) :
    Option (List String) :=
  match membersT.find? (fun m => m.role == "leader") with
  | none => some []
  | some lead =>
    match nm.find? (fun r => r.memberId == lead.memberId) with
    | none => none
    | some ls =>
      some
        ((if ls.degreeCentrality < meanQ (nm.map (fun r => r.degreeCentrality))
            then [reasonCentrality] else []) ++
         (if ls.activityScore < meanQ (nm.map (fun r => r.activityScore)) * (6/10)
            then [reasonInactive] else []) ++
         (if ls.totalReceived < meanQ (nm.map (fun r => r.totalReceived)) * (5/10)
            then [reasonLowReceived] else []))

/-! ## Affinity-weighted synthetic generator:
src/data_generation/generate_synthetic.py lines 141-257.

Python's seeded `random` / `np.random` generators are abstracted as one
deterministic stream `ℕ → ℕ` consumed one value per library draw, each value
mapped into the range the source requests; weighted choices keep their
support but the library's distribution arithmetic is not re-derived.  The
wall-clock dependent `START_DATE = datetime.now() - timedelta(days=DAYS)`
enters through the explicit `startDate` field. -/
structure GenParams where
  memberIds : List String
  affinity : String → String → ℚ
  days : ℕ
  target : ℕ
  bursts : List ℕ
  startDate : ℤ
  stream : ℕ → ℕ

/-- Mutable loop state: next stream position, interaction_count, and the
`interactions` / `tasks` accumulators. -/
structure GenState where
  idx : ℕ
  count : ℕ
  interactions : List Interaction
  tasks : List Task
deriving DecidableEq

/-- `ts + timedelta(days=k)`. -/
def addDays (t : Ts) (k : ℕ) : Ts := { t with day := t.day + (k : ℤ) }

/-- The event's source member: `random.choices(member_ids, role_weights)`,
abstracted as a stream-determined element of member_ids. -/
def eventSource (p : GenParams) (idx : ℕ) : String :=
  p.memberIds.getD (p.stream (idx + 3) % p.memberIds.length) ""

/-- The interaction record built at generate_synthetic.py lines 159-228:
draws at positions idx..idx+4 give the within-day time, the source and the
interaction type; `pidx` is the position of the platform draw (it differs by
one between the broadcast and the targeted branch), followed by the jitter
and content-length draws. -/
def mkEvent (p : GenParams) (date : ℤ) (idx : ℕ) (target : Option String)
    (pidx : ℕ) : Interaction :=
  let source := eventSource p idx
  let itype := INTERACTION_TYPES.getD (p.stream (idx + 4) % 6) ""
  let affinityScale : ℚ :=
    match target with
    | none => 1
    | some t => p.affinity source t
  let jitter : ℚ := 85/100 + randFloat (p.stream (pidx + 1)) * (4/10)
  let textLen := 5 + p.stream (pidx + 2) % 596
  { ts := ⟨date, 8 + p.stream idx % 16, p.stream (idx + 1) % 60,
      p.stream (idx + 2) % 60⟩
    teamId := "T01"
    source := source
    target := target
    itype := itype
    platform := PLATFORMS.getD (p.stream pidx % 5) ""
    weight := round3 (base_weight itype * affinityScale * jitter)
    content := "<" ++ itype ++ "> " ++
      String.mk (List.replicate (max 4 (textLen / 2)) 'x') }

/-- Target selection (lines 193-198): with probability 0.09 a broadcast
(no draw for the target), otherwise an affinity-weighted choice over the
members different from the source.  `random.random() < 0.09` is the exact
natural-number comparison `draw % 10^6 < 90000` of the draw underlying
`randFloat`. -/
def eventTargets (p : GenParams) (idx : ℕ) : List String :=
  p.memberIds.filter (fun x => x ≠ eventSource p idx)

/-- The event pair: the interaction record and the next stream position. -/
def eventCore (p : GenParams) (date : ℤ) (idx : ℕ) : Interaction × ℕ :=
  if p.stream (idx + 5) % 1000000 < 90000 then
    (mkEvent p date idx none (idx + 6), idx + 9)
  else
    (mkEvent p date idx
      (some ((eventTargets p idx).getD
        (p.stream (idx + 6) % (eventTargets p idx).length) ""))
      (idx + 7), idx + 10)

/-- The task filter of line 245: same team and still assigned. -/
def isAssigned (t : Task) : Bool := t.teamId == "T01" && t.status == "assigned"

/-- In-place completion of a chosen task (lines 248-250). -/
def completeTask (src : String) (ts : Ts) (t : Task) : Task :=
  { t with
    status := "completed"
    completedBy := some src
    completedAt := some ts }

/-- Apply `f` to the k-th still-assigned task of the list, leaving every
other position untouched (the mutation of the chosen `team_tasks` row). -/
def setNthAssigned (f : Task → Task) : ℕ → List Task → List Task
  | _, [] => []
  | k, t :: rest =>
    if isAssigned t then
      if k = 0 then f t :: rest else t :: setNthAssigned f (k - 1) rest
    else t :: setNthAssigned f k rest

/-- task_complete handling (lines 244-250): no draw and no change when no
assigned task exists, else `random.choice(team_tasks)` completes one
stream-chosen assigned task. -/
def taskCompleteStep (p : GenParams) (src : String) (ts : Ts) (idx : ℕ)
    (tasks : List Task) : List Task × ℕ :=
  let assigned := tasks.filter isAssigned
  if assigned.length = 0 then (tasks, idx)
  else
    (setNthAssigned (completeTask src ts) (p.stream idx % assigned.length)
      tasks, idx + 1)

/-- Task side effects of one event (lines 232-250): task_assign appends a
fresh assigned task (due in randint(1,10) days), task_complete completes a
currently assigned one when possible, other types leave the registry alone. -/
def taskStep (p : GenParams) (i : Interaction) (idx : ℕ) (tasks : List Task) :
    List Task × ℕ :=
  if i.itype == "task_assign" then
    (tasks ++ [{
        teamId := "T01"
        assignedBy := i.source
        assignedTo := i.target.getD i.source
        assignedAt := i.ts
        dueDate := addDays i.ts (1 + p.stream idx % 10)
        status := "assigned"
        completedBy := none
        completedAt := none }],
      idx + 1)
  else if i.itype == "task_complete" then taskCompleteStep p i.source i.ts idx tasks
  else (tasks, idx)

/-- One iteration of the per-event loop body: build the record, append it,
bump interaction_count, apply the task side effects. -/
def processEvent (p : GenParams) (date : ℤ) (st : GenState) : GenState :=
  ⟨(taskStep p (eventCore p date st.idx).1 (eventCore p date st.idx).2 st.tasks).2,
   st.count + 1,
   st.interactions ++ [(eventCore p date st.idx).1],
   (taskStep p (eventCore p date st.idx).1 (eventCore p date st.idx).2 st.tasks).1⟩

/-- `for _ in range(n_events)` with the `if interaction_count >= TARGET:
break` check placed after each event (lines 159-253). -/
def runEvents (p : GenParams) (date : ℤ) : ℕ → GenState → GenState
  | 0, st => st
  | n + 1, st =>
    let st' := processEvent p date st
    if p.target ≤ st'.count then st' else runEvents p date n st'

/-- One day of the day loop (lines 150-158): base rate, burst scaling on
pre-selected burst days, a 6% quiet chance, then a Poisson-distributed event
count (stream-determined; zero when the rate has been truncated to zero,
matching Poisson(0)).  The float expressions are carried out exactly over
the draws underlying `randFloat`:
`int(lam * uniform(2.0, 3.0))` is `lam * (2*10^6 + draw % 10^6) / 10^6` and
`int(lam * uniform(0.1, 0.6))` is `lam * (2*10^5 + draw % 10^6) / (2*10^6)`
in truncating natural division, and `random.random() < 0.06` is
`draw % 10^6 < 60000`. -/
def runDay (p : GenParams) (dIdx : ℕ) (st : GenState) : GenState :=
  let lam0 : ℕ := max 4 (p.memberIds.length * 10)
  let b1 : ℕ × ℕ :=
    if dIdx ∈ p.bursts then
      (lam0 * (2000000 + p.stream st.idx % 1000000) / 1000000, st.idx + 1)
    else (lam0, st.idx)
  let b2 : ℕ × ℕ :=
    if p.stream b1.2 % 1000000 < 60000 then
      (b1.1 * (200000 + p.stream (b1.2 + 1) % 1000000) / 2000000, b1.2 + 2)
    else (b1.1, b1.2 + 1)
  let nEvents := if b2.1 = 0 then 0 else p.stream b2.2
  runEvents p (p.startDate + (dIdx : ℤ)) nEvents
    ⟨b2.2 + 1, st.count, st.interactions, st.tasks⟩

/-- `for day_idx, day in enumerate(date_list)` with the day-level break
check after each day (lines 150, 254-255). -/
def runDays (p : GenParams) : ℕ → ℕ → GenState → GenState
  | _, 0, st => st
  | dIdx, rem + 1, st =>
    let st' := runDay p dIdx st
    if p.target ≤ st'.count then st' else runDays p (dIdx + 1) rem st'

/-- `while interaction_count < TARGET_INTERACTIONS` (line 149), fuel-bounded:
`none` when the loop has not terminated within `fuel` whole-day passes. -/
def runGen (p : GenParams) : ℕ → GenState → Option GenState
  | 0, st => if p.target ≤ st.count then some st else none
  | fuel + 1, st =>
    if p.target ≤ st.count then some st
    else runGen p fuel (runDays p 0 p.days st)

/-- The loop's initial state (lines 141-143). -/
def genInit : GenState := ⟨0, 0, [], []⟩

/-- A full generator run with the given fuel. -/
def generate (p : GenParams) (fuel : ℕ) : Option GenState :=
  runGen p fuel genInit

/-! ### Timestamp shifting, for the wall-clock dependence of START_DATE. -/

/-- Shift a timestamp by a whole number of days. -/
def shiftTs (d : ℤ) (t : Ts) : Ts := { t with day := t.day + d }

/-- Shift an interaction's timestamp. -/
def shiftI (d : ℤ) (i : Interaction) : Interaction := { i with ts := shiftTs d i.ts }

/-- Shift every date field of a task record. -/
def shiftTask (d : ℤ) (t : Task) : Task :=
  { t with
    assignedAt := shiftTs d t.assignedAt
    dueDate := shiftTs d t.dueDate
    completedAt := t.completedAt.map (shiftTs d) }

/-- Shift every produced timestamp of a generator state. -/
def shiftState (d : ℤ) (st : GenState) : GenState :=
  ⟨st.idx, st.count, st.interactions.map (shiftI d), st.tasks.map (shiftTask d)⟩

/-- The same run parameters launched `d` days later. -/
def shiftParams (d : ℤ) (p : GenParams) : GenParams :=
  { p with startDate := p.startDate + d }

/-- Concrete parameters used to exhibit runs of the generator. -/
def demoP : GenParams :=
  { memberIds := ["A", "B"], affinity := fun _ _ => 1, days := 1, target := 1,
    bursts := [], startDate := 0, stream := fun _ => 1 }

/-- `affinity_scale` of generate_synthetic.py line 211: 1.0 for a broadcast,
else the pairwise affinity from source to target. -/
def affinity_scale (p : GenParams) (i : Interaction) : ℚ :=
  match i.target with
  | none => 1
  | some t => p.affinity i.source t

/-- A log consisting of one self-directed interaction. -/
def selfLoopLog : List Interaction :=
  [{ ts := ⟨0, 0, 0, 0⟩, teamId := "T01", source := "A", target := some ("A"),
     itype := "message", platform := "slack", weight := 1, content := "" }]

/-- A default interaction record, used only to select elements of concrete
generated logs. -/
def dummyI : Interaction :=
  { ts := ⟨0, 0, 0, 0⟩, teamId := "", source := "", target := none,
    itype := "", platform := "", weight := 0, content := "" }

/-- Task-registry preservation: every task already completed in the first
list is still present, unchanged, at the same position in the second. -/
def TasksPreserved (t t' : List Task) : Prop :=
  ∀ (j : ℕ) (h : j < t.length), (t.get ⟨j, h⟩).status = "completed" →
    t'.get? j = some (t.get ⟨j, h⟩)

/-- A state relation closed under the generator's loop structure: reflexive,
transitive, preserved by every event and by stream-position updates. -/
structure StepClosed (p : GenParams) (R : GenState → GenState → Prop) : Prop where
  refl : ∀ st, R st st
  trans : ∀ a b c, R a b → R b c → R a c
  step : ∀ date st, R st (processEvent p date st)
  idxSet : ∀ st x, R st ⟨x, st.count, st.interactions, st.tasks⟩

/-! # Theorems -/

/-- C1: on a graph with zero edges the team-metrics computation of
compute_metrics.py lines 134-140 does not return zero values: the
`nx.reciprocity` call raises NetworkXError for every zero-edge graph,
aborting the computation (the claim expects reciprocity = 0 and no
exception). -/
theorem C1_empty_graph_metrics_raise (membersL : List String) :
    team_metrics membersL [] = .error ("Not defined for empty graphs") := by
  simp [team_metrics, nxReciprocity]

/-- C2 counterexample: the base-weight table of generate_synthetic.py lines
202-209 maps reply to 1.2 and comment to 1.3, so the claimed strict order
`reply > comment` is false. -/
theorem C2_base_weight_order_counterexample :
    ¬ (base_weight ("reply") > base_weight ("comment")) := by
  have h1 : base_weight ("reply") = 12/10 := rfl
  have h2 : base_weight ("comment") = 13/10 := rfl
  rw [h1, h2]
  norm_num

/-- C3: every member of clean_members.csv is a node of the directed graph
built in compute_metrics.py lines 76-84, whatever the interaction log (and
hence whatever adjacency list) is — isolated members included. -/
theorem C3_every_member_is_a_node (membersL : List String)
    (log : List Interaction) (m : String) (hm : m ∈ membersL) :
    m ∈ graphNodes membersL (adjList log) :=
  List.mem_dedup.mpr (List.mem_append_left _ hm)

/-- C3 witness: a member with no interactions is a node of the graph built
from the empty log. -/
theorem C3_every_member_is_a_node_witness :
    "A" ∈ graphNodes ["A", "B"] (adjList []) :=
  C3_every_member_is_a_node ["A", "B"] [] "A" (by decide)

/-- C5 counterexample: build_interaction_matrix does not drop rows whose
source equals their target, so a log containing a self-directed interaction
yields an aggregated edge with source = target. -/
theorem C5_self_loop_counterexample :
    ∃ e ∈ adjList selfLoopLog, e.source = e.target := by decide

/-! ### Lookup lemmas for the groupby / merge / fillna pipeline -/

/-- Looking a key up in a table mapping each key of `l` to `g` of it finds
the first hit, which carries exactly `g` of the key. -/
theorem find?_table {β : Type} (g : String → β) (m : String) :
    ∀ l : List String, (l.map (fun k => (k, g k))).find? (fun r => r.1 == m) =
      if m ∈ l then some (m, g m) else none := by
  intro l
  induction l with
  | nil => simp
  | cons x xs ih =>
    by_cases hx : x = m
    · subst hx
      simp [List.find?_cons]
    · have hmx : ¬ m = x := fun h => hx h.symm
      simp [List.find?_cons, hx, hmx, ih, List.mem_cons]

/-- groupby-size followed by left-merge and fillna(0) is a direct filtered
count over the key column. -/
theorem colDN_groupCount (keys : List String) (m : String) :
    colDN (groupCount keys) m = (keys.filter (fun x => x == m)).length := by
  unfold colDN groupCount
  rw [find?_table (fun k => (keys.filter (fun x => x == k)).length) m keys.dedup]
  by_cases hm : m ∈ keys
  · simp [List.mem_dedup, hm]
  · have h0 : keys.filter (fun x => x == m) = [] := by
      rw [List.filter_eq_nil_iff]
      intro x hx hbeq
      exact hm (beq_iff_eq.mp hbeq ▸ hx)
    simp [List.mem_dedup, hm, h0]

/-- groupby-sum followed by left-merge and fillna(0) is a direct filtered
sum over the key column. -/
theorem colD_groupSum (rows : List (String × ℚ)) (m : String) :
    colD (groupSum rows) m =
      ((rows.filter (fun r => r.1 == m)).map (fun r => r.2)).sum := by
  unfold colD groupSum
  rw [find?_table
    (fun k => ((rows.filter (fun r => r.1 == k)).map (fun r => r.2)).sum) m
    (rows.map (fun r => r.1)).dedup]
  by_cases hm : m ∈ rows.map (fun r => r.1)
  · simp [List.mem_dedup, hm]
  · have h0 : rows.filter (fun r => r.1 == m) = [] := by
      rw [List.filter_eq_nil_iff]
      intro r hr hbeq
      exact hm (List.mem_map.mpr ⟨r, hr, beq_iff_eq.mp hbeq⟩)
    simp [List.mem_dedup, hm, h0]

/-- Counting a value among the present targets of a log equals counting the
log rows targeting that value. -/
theorem filterMap_target_count (log : List Interaction) (m : String) :
    ((log.filterMap (fun i => i.target)).filter (fun x => x == m)).length =
      (log.filter (fun i => i.target == some m)).length := by
  induction log with
  | nil => rfl
  | cons i l ih =>
    cases h : i.target with
    | none => simp [List.filterMap_cons, h, List.filter_cons, ih]
    | some t =>
      by_cases ht : t = m
      · subst ht
        simp [List.filterMap_cons, h, List.filter_cons, ih]
      · simp [List.filterMap_cons, h, List.filter_cons, ht, ih]

/-- C9: the pipeline's activity_score equals
0.4·(direct per-source row count, broadcasts included) +
0.2·(direct present-target row count) + 0.4·(direct adjacency out-weight
sum), i.e. the groupby/merge/fillna machinery computes exactly the
documented counts from the original log. -/
theorem C9_activity_score_formula (log : List Interaction) (adj : List Edge)
    (m : String) :
    activity_score log adj m =
      ((log.filter (fun i => i.source == m)).length : ℚ) * (4/10) +
      ((log.filter (fun i => i.target == some m)).length : ℚ) * (2/10) +
      ((adj.filter (fun e => e.source == m)).map (fun e => e.weight)).sum * (4/10) := by
  unfold activity_score total_sent total_received weighted_sent
  rw [colDN_groupCount, colDN_groupCount, colD_groupSum, filterMap_target_count]
  have h1 : (log.map (fun i => i.source)).filter (fun x => x == m) =
      (log.filter (fun i => i.source == m)).map (fun i => i.source) := by
    rw [List.filter_map]
    rfl
  have h2 : (adj.map (fun e => (e.source, e.weight))).filter (fun r => r.1 == m) =
      (adj.filter (fun e => e.source == m)).map (fun e => (e.source, e.weight)) := by
    rw [List.filter_map]
    rfl
  rw [h1, h2, List.length_map, List.map_map]
  rfl

/-! ### Weight-conservation lemmas -/

/-- Pointwise sums distribute over a mapped list sum. -/
theorem sum_map_add (l : List String) (f g : String → ℚ) :
    (l.map (fun x => f x + g x)).sum = (l.map f).sum + (l.map g).sum := by
  induction l with
  | nil => simp
  | cons x xs ih =>
    simp only [List.map_cons, List.sum_cons, ih]
    ring

/-- An indicator sum over a list not containing the key vanishes. -/
theorem sum_if_not_mem (w : ℚ) (a : String) :
    ∀ l : List String, a ∉ l →
      (l.map (fun m => if a = m then w else 0)).sum = 0 := by
  intro l
  induction l with
  | nil => simp
  | cons x xs ih =>
    intro ha
    have hax : ¬ a = x := fun h => ha (h ▸ List.mem_cons_self x xs)
    simp [hax, ih (fun h => ha (List.mem_cons_of_mem x h))]

/-- An indicator sum over a duplicate-free list containing the key is the
key's weight. -/
theorem sum_if_single (w : ℚ) (a : String) :
    ∀ l : List String, l.Nodup → a ∈ l →
      (l.map (fun m => if a = m then w else 0)).sum = w := by
  intro l
  induction l with
  | nil => intro _ ha; cases ha
  | cons x xs ih =>
    intro hnd ha
    rcases List.mem_cons.mp ha with h | h
    · subst h
      have hnotin : a ∉ xs := (List.nodup_cons.mp hnd).1
      simp [sum_if_not_mem w a xs hnotin]
    · have hax : ¬ a = x := by
        rintro rfl
        exact (List.nodup_cons.mp hnd).1 h
      simp [hax, ih (List.nodup_cons.mp hnd).2 h]

/-- Summing, over a duplicate-free member list, the per-member filtered sums
of a keyed row list whose keys all belong to the member list gives the total
sum of the rows. -/
theorem sum_rows_by_member (membersL : List String) (hnd : membersL.Nodup) :
    ∀ rows : List (String × ℚ), (∀ r ∈ rows, r.1 ∈ membersL) →
      (membersL.map (fun m =>
        ((rows.filter (fun r => r.1 == m)).map (fun r => r.2)).sum)).sum =
      (rows.map (fun r => r.2)).sum := by
  intro rows
  induction rows with
  | nil => simp
  | cons r rows ih =>
    intro hr
    have hmem : r.1 ∈ membersL := hr r (List.mem_cons_self r rows)
    have step : ∀ m : String,
        ((List.filter (fun q => q.1 == m) (r :: rows)).map (fun q => q.2)).sum =
          (if r.1 = m then r.2 else 0) +
            ((rows.filter (fun q => q.1 == m)).map (fun q => q.2)).sum := by
      intro m
      by_cases h : r.1 = m
      · simp [List.filter_cons, h]
      · simp [List.filter_cons, h]
    simp only [step, sum_map_add]
    rw [sum_if_single r.2 r.1 membersL hnd hmem,
      ih (fun q hq => hr q (List.mem_cons_of_mem r hq))]
    simp

/-- C6: over any duplicate-free member table covering every edge endpoint,
the members' weighted_sent totals and weighted_received totals coincide —
each adjacency edge contributes its weight once to its source's out-sum and
once to its target's in-sum. -/
theorem C6_weighted_sent_received_balance (membersL : List String)
    (adj : List Edge) (hnd : membersL.Nodup)
    (hend : ∀ e ∈ adj, e.source ∈ membersL ∧ e.target ∈ membersL) :
    (membersL.map (fun m => weighted_sent adj m)).sum =
      (membersL.map (fun m => weighted_received adj m)).sum := by
  have hs := sum_rows_by_member membersL hnd
    (adj.map (fun e => (e.source, e.weight)))
    (by
      intro r hr
      rcases List.mem_map.mp hr with ⟨e, he, rfl⟩
      exact (hend e he).1)
  have ht := sum_rows_by_member membersL hnd
    (adj.map (fun e => (e.target, e.weight)))
    (by
      intro r hr
      rcases List.mem_map.mp hr with ⟨e, he, rfl⟩
      exact (hend e he).2)
  have hws : ∀ m, weighted_sent adj m =
      (((adj.map (fun e => (e.source, e.weight))).filter
        (fun r => r.1 == m)).map (fun r => r.2)).sum := by
    intro m
    unfold weighted_sent
    exact colD_groupSum (adj.map (fun e => (e.source, e.weight))) m
  have hwr : ∀ m, weighted_received adj m =
      (((adj.map (fun e => (e.target, e.weight))).filter
        (fun r => r.1 == m)).map (fun r => r.2)).sum := by
    intro m
    unfold weighted_received
    exact colD_groupSum (adj.map (fun e => (e.target, e.weight))) m
  simp only [hws, hwr]
  rw [hs, ht]
  simp [List.map_map]
  rfl

/-- C6 witness: a concrete one-edge graph whose endpoints are both members
balances. -/
theorem C6_weighted_sent_received_balance_witness :
    ((["A", "B"] : List String).map
      (fun m => weighted_sent [⟨"A", "B", 1, 2⟩] m)).sum =
    ((["A", "B"] : List String).map
      (fun m => weighted_received [⟨"A", "B", 1, 2⟩] m)).sum :=
  C6_weighted_sent_received_balance ["A", "B"] [⟨"A", "B", 1, 2⟩]
    (by decide) (by decide)

/-- C8: role-mismatch detection returns `[]` when no member is a leader;
when a leader row exists (first one taken) and its metrics row is found, the
result list contains exactly one fixed reason string per satisfied condition
— degree centrality below the team mean, activity below 0.6× the mean
activity, total received below 0.5× the mean total received — and is empty
exactly when no condition holds. -/
theorem C8_role_mismatch_reasons :
    (∀ (membersT : List Member) (nm : List NodeMetric),
      (∀ mr ∈ membersT, mr.role ≠ "leader") →
      role_mismatch membersT nm = some []) ∧
    (∀ (membersT : List Member) (nm : List NodeMetric) (lead : Member)
      (ls : NodeMetric),
      membersT.find? (fun mr => mr.role == "leader") = some lead →
      nm.find? (fun r => r.memberId == lead.memberId) = some ls →
      ∃ rs, role_mismatch membersT nm = some rs ∧
        (reasonCentrality ∈ rs ↔
          ls.degreeCentrality < meanQ (nm.map (fun r => r.degreeCentrality))) ∧
        (reasonInactive ∈ rs ↔
          ls.activityScore < meanQ (nm.map (fun r => r.activityScore)) * (6/10)) ∧
        (reasonLowReceived ∈ rs ↔
          ls.totalReceived < meanQ (nm.map (fun r => r.totalReceived)) * (5/10)) ∧
        rs.length =
          ((if ls.degreeCentrality <
              meanQ (nm.map (fun r => r.degreeCentrality)) then 1 else 0) +
           (if ls.activityScore <
              meanQ (nm.map (fun r => r.activityScore)) * (6/10) then 1 else 0) +
           (if ls.totalReceived <
              meanQ (nm.map (fun r => r.totalReceived)) * (5/10) then 1 else 0)) ∧
        (rs = [] ↔
          ¬ ls.degreeCentrality < meanQ (nm.map (fun r => r.degreeCentrality)) ∧
          ¬ ls.activityScore < meanQ (nm.map (fun r => r.activityScore)) * (6/10) ∧
          ¬ ls.totalReceived < meanQ (nm.map (fun r => r.totalReceived)) * (5/10))) := by
  constructor
  · intro membersT nm h
    have hf : membersT.find? (fun mr => mr.role == "leader") = none := by
      rw [List.find?_eq_none]
      intro x hx
      simpa using h x hx
    simp [role_mismatch, hf]
  · intro membersT nm lead ls hf hs
    have d12 : reasonCentrality ≠ reasonInactive := by decide
    have d13 : reasonCentrality ≠ reasonLowReceived := by decide
    have d23 : reasonInactive ≠ reasonLowReceived := by decide
    have heq : role_mismatch membersT nm = some
        ((if ls.degreeCentrality <
            meanQ (nm.map (fun r => r.degreeCentrality))
          then [reasonCentrality] else []) ++
         (if ls.activityScore <
            meanQ (nm.map (fun r => r.activityScore)) * (6/10)
          then [reasonInactive] else []) ++
         (if ls.totalReceived <
            meanQ (nm.map (fun r => r.totalReceived)) * (5/10)
          then [reasonLowReceived] else [])) := by
      simp only [role_mismatch, hf, hs]
    refine ⟨_, heq, ?_, ?_, ?_, ?_, ?_⟩ <;>
      by_cases h1 : ls.degreeCentrality <
          meanQ (nm.map (fun r => r.degreeCentrality)) <;>
      by_cases h2 : ls.activityScore <
          meanQ (nm.map (fun r => r.activityScore)) * (6/10) <;>
      by_cases h3 : ls.totalReceived <
          meanQ (nm.map (fun r => r.totalReceived)) * (5/10) <;>
      simp [h1, h2, h3, d12, d13, d23, d12.symm, d13.symm, d23.symm]

/-- C8 witness: both branches reached on concrete inputs — a leaderless
team is skipped with an empty result, and a leader whose metrics sit at the
team mean triggers no reason. -/
theorem C8_role_mismatch_reasons_witness :
    role_mismatch [⟨"A", "regular"⟩] [] = some [] ∧
    ∃ rs, role_mismatch [⟨"A", "leader"⟩] [⟨"A", 1, 1, 1⟩] = some rs ∧
      (reasonCentrality ∈ rs ↔ (1 : ℚ) <
        meanQ (([⟨"A", 1, 1, 1⟩] : List NodeMetric).map
          (fun r => r.degreeCentrality))) ∧
      (reasonInactive ∈ rs ↔ (1 : ℚ) <
        meanQ (([⟨"A", 1, 1, 1⟩] : List NodeMetric).map
          (fun r => r.activityScore)) * (6/10)) ∧
      (reasonLowReceived ∈ rs ↔ (1 : ℚ) <
        meanQ (([⟨"A", 1, 1, 1⟩] : List NodeMetric).map
          (fun r => r.totalReceived)) * (5/10)) ∧
      rs.length =
        ((if (1 : ℚ) < meanQ (([⟨"A", 1, 1, 1⟩] : List NodeMetric).map
            (fun r => r.degreeCentrality)) then 1 else 0) +
         (if (1 : ℚ) < meanQ (([⟨"A", 1, 1, 1⟩] : List NodeMetric).map
            (fun r => r.activityScore)) * (6/10) then 1 else 0) +
         (if (1 : ℚ) < meanQ (([⟨"A", 1, 1, 1⟩] : List NodeMetric).map
            (fun r => r.totalReceived)) * (5/10) then 1 else 0)) ∧
      (rs = [] ↔
        ¬ (1 : ℚ) < meanQ (([⟨"A", 1, 1, 1⟩] : List NodeMetric).map
          (fun r => r.degreeCentrality)) ∧
        ¬ (1 : ℚ) < meanQ (([⟨"A", 1, 1, 1⟩] : List NodeMetric).map
          (fun r => r.activityScore)) * (6/10) ∧
        ¬ (1 : ℚ) < meanQ (([⟨"A", 1, 1, 1⟩] : List NodeMetric).map
          (fun r => r.totalReceived)) * (5/10)) :=
  ⟨C8_role_mismatch_reasons.1 [⟨"A", "regular"⟩] [] (by decide),
   C8_role_mismatch_reasons.2 [⟨"A", "leader"⟩] [⟨"A", 1, 1, 1⟩]
     ⟨"A", "leader"⟩ ⟨"A", 1, 1, 1⟩ (by decide) (by decide)⟩

/-! ### Loop-structure lemmas for the generator -/

/-- A step-closed relation propagates through the per-event loop. -/
theorem runEvents_rel (p : GenParams) (R : GenState → GenState → Prop)
    (hR : StepClosed p R) (date : ℤ) :
    ∀ (n : ℕ) (st : GenState), R st (runEvents p date n st) := by
  intro n
  induction n with
  | zero => intro st; exact hR.refl st
  | succ n ih =>
    intro st
    simp only [runEvents]
    split
    · exact hR.step date st
    · exact hR.trans _ _ _ (hR.step date st) (ih _)

/-- A step-closed relation propagates through one simulated day. -/
theorem runDay_rel (p : GenParams) (R : GenState → GenState → Prop)
    (hR : StepClosed p R) (dIdx : ℕ) (st : GenState) :
    R st (runDay p dIdx st) := by
  unfold runDay
  exact hR.trans _ _ _ (hR.idxSet st _) (runEvents_rel p R hR _ _ _)

/-- A step-closed relation propagates through the day loop. -/
theorem runDays_rel (p : GenParams) (R : GenState → GenState → Prop)
    (hR : StepClosed p R) :
    ∀ (rem dIdx : ℕ) (st : GenState), R st (runDays p dIdx rem st) := by
  intro rem
  induction rem with
  | zero => intro dIdx st; exact hR.refl st
  | succ rem ih =>
    intro dIdx st
    simp only [runDays]
    split
    · exact runDay_rel p R hR dIdx st
    · exact hR.trans _ _ _ (runDay_rel p R hR dIdx st) (ih _ _)

/-- A step-closed relation relates the initial and final state of every
terminating run of the generation loop. -/
theorem runGen_rel (p : GenParams) (R : GenState → GenState → Prop)
    (hR : StepClosed p R) :
    ∀ (fuel : ℕ) (st res : GenState), runGen p fuel st = some res → R st res := by
  intro fuel
  induction fuel with
  | zero =>
    intro st res h
    simp only [runGen] at h
    split at h
    · cases h
      exact hR.refl st
    · cases h
  | succ fuel ih =>
    intro st res h
    simp only [runGen] at h
    split at h
    · cases h
      exact hR.refl st
    · exact hR.trans _ _ _ (runDays_rel p R hR p.days 0 st) (ih _ _ h)

/-! ### Interaction-count invariants (for the exact-target property) -/

/-- Through the per-event loop, the interaction list tracks the counter and
the counter never exceeds the target once it starts below it. -/
theorem runEvents_count_invariant (p : GenParams) (date : ℤ) :
    ∀ (n : ℕ) (st : GenState),
      st.interactions.length = st.count → st.count < p.target →
      (runEvents p date n st).interactions.length = (runEvents p date n st).count ∧
        (runEvents p date n st).count ≤ p.target := by
  intro n
  induction n with
  | zero => intro st hlen hlt; exact ⟨hlen, Nat.le_of_lt hlt⟩
  | succ n ih =>
    intro st hlen hlt
    have hlen' : (processEvent p date st).interactions.length =
        (processEvent p date st).count := by
      show (st.interactions ++ [(eventCore p date st.idx).1]).length = st.count + 1
      simp [hlen]
    have hcnt : (processEvent p date st).count = st.count + 1 := rfl
    simp only [runEvents]
    split
    · exact ⟨hlen', by omega⟩
    · next hc => exact ih _ hlen' (by omega)

/-- The same invariant through one day. -/
theorem runDay_count_invariant (p : GenParams) (dIdx : ℕ) (st : GenState)
    (hlen : st.interactions.length = st.count) (hlt : st.count < p.target) :
    (runDay p dIdx st).interactions.length = (runDay p dIdx st).count ∧
      (runDay p dIdx st).count ≤ p.target := by
  unfold runDay
  exact runEvents_count_invariant p _ _ _ hlen hlt

/-- The same invariant through the day loop. -/
theorem runDays_count_invariant (p : GenParams) :
    ∀ (rem dIdx : ℕ) (st : GenState),
      st.interactions.length = st.count → st.count < p.target →
      (runDays p dIdx rem st).interactions.length = (runDays p dIdx rem st).count ∧
        (runDays p dIdx rem st).count ≤ p.target := by
  intro rem
  induction rem with
  | zero => intro dIdx st hlen hlt; exact ⟨hlen, Nat.le_of_lt hlt⟩
  | succ rem ih =>
    intro dIdx st hlen hlt
    obtain ⟨h1, h2⟩ := runDay_count_invariant p dIdx st hlen hlt
    simp only [runDays]
    split
    · exact ⟨h1, h2⟩
    · next hc => exact ih _ _ h1 (by omega)

/-- A terminating run that starts within the target finishes with
interaction count exactly at the target. -/
theorem runGen_exact_target (p : GenParams) :
    ∀ (fuel : ℕ) (st res : GenState),
      st.interactions.length = st.count → st.count ≤ p.target →
      runGen p fuel st = some res →
      res.interactions.length = p.target := by
  intro fuel
  induction fuel with
  | zero =>
    intro st res hlen hle h
    simp only [runGen] at h
    split at h
    · next hc => cases h; omega
    · cases h
  | succ fuel ih =>
    intro st res hlen hle h
    simp only [runGen] at h
    split at h
    · next hc => cases h; omega
    · next hc =>
      obtain ⟨h1, h2⟩ := runDays_count_invariant p p.days 0 st hlen (by omega)
      exact ih _ _ h1 h2 h

/-- C10: whenever the generation loop terminates, the produced interaction
log has length exactly the target count — the loop breaks out of the event,
day and whole-pass loops the moment the counter reaches the target, without
finishing the current day. -/
theorem C10_log_length_is_exact_target (p : GenParams) (fuel : ℕ)
    (h : (generate p fuel).isSome = true) :
    ((generate p fuel).getD genInit).interactions.length = p.target := by
  obtain ⟨res, hres⟩ := Option.isSome_iff_exists.mp h
  have hlen := runGen_exact_target p fuel genInit res rfl (Nat.zero_le _) hres
  rw [hres]
  exact hlen

/-- C10 witness: the demo parameters terminate within one pass and produce
exactly their one-interaction target. -/
theorem C10_log_length_is_exact_target_witness :
    ((generate demoP 1).getD genInit).interactions.length = 1 :=
  C10_log_length_is_exact_target demoP 1 (by decide)

/-! ### Task-registry lemmas -/

/-- A completed task fails the assigned-filter. -/
theorem isAssigned_false_of_completed (t : Task) (h : t.status = "completed") :
    isAssigned t = false := by
  simp [isAssigned, h]

/-- Completing the k-th assigned task replaces exactly one position, which
held an assigned task, by its completed version. -/
theorem setNthAssigned_spec (f : Task → Task) :
    ∀ (tasks : List Task) (k : ℕ), k < (tasks.filter isAssigned).length →
      ∃ j, ∃ h : j < tasks.length, isAssigned (tasks.get ⟨j, h⟩) = true ∧
        setNthAssigned f k tasks = tasks.set j (f (tasks.get ⟨j, h⟩)) := by
  intro tasks
  induction tasks with
  | nil => intro k hk; simp at hk
  | cons t rest ih =>
    intro k hk
    by_cases ht : isAssigned t
    · cases k with
      | zero =>
        refine ⟨0, Nat.succ_pos _, ?_, ?_⟩
        · simpa using ht
        · simp [setNthAssigned, ht]
      | succ k =>
        have hk' : k < (rest.filter isAssigned).length := by
          rw [List.filter_cons, if_pos ht] at hk
          simpa using hk
        obtain ⟨j, hj, hass, heq⟩ := ih k hk'
        refine ⟨j + 1, Nat.succ_lt_succ hj, ?_, ?_⟩
        · simpa using hass
        · simp [setNthAssigned, ht, heq]
    · have hk' : k < (rest.filter isAssigned).length := by
        rw [List.filter_cons, if_neg ht] at hk
        exact hk
      obtain ⟨j, hj, hass, heq⟩ := ih k hk'
      refine ⟨j + 1, Nat.succ_lt_succ hj, ?_, ?_⟩
      · simpa using hass
      · simp [setNthAssigned, ht, heq]

/-- Task preservation is reflexive. -/
theorem tasksPreserved_refl (t : List Task) : TasksPreserved t t :=
  fun _ h _ => List.get?_eq_get h

/-- Task preservation is transitive. -/
theorem tasksPreserved_trans {a b c : List Task}
    (h1 : TasksPreserved a b) (h2 : TasksPreserved b c) : TasksPreserved a c := by
  intro j h hc
  have hb := h1 j h hc
  obtain ⟨hlt, hget⟩ := List.get?_eq_some.mp hb
  have := h2 j hlt (by rw [hget]; exact hc)
  rw [hget] at this
  exact this

/-- One task_complete step never touches a completed task. -/
theorem taskCompleteStep_preserves (p : GenParams) (src : String) (ts : Ts)
    (idx : ℕ) (tasks : List Task) :
    TasksPreserved tasks (taskCompleteStep p src ts idx tasks).1 := by
  unfold taskCompleteStep
  by_cases h0 : (tasks.filter isAssigned).length = 0
  · simp only [if_pos h0]
    exact tasksPreserved_refl tasks
  · simp only [if_neg h0]
    intro j hj hc
    obtain ⟨i, hi, hass, heq⟩ := setNthAssigned_spec (completeTask src ts) tasks
      (p.stream idx % (tasks.filter isAssigned).length)
      (Nat.mod_lt _ (Nat.pos_of_ne_zero h0))
    have hji : j ≠ i := by
      intro hji
      subst hji
      rw [isAssigned_false_of_completed _ hc] at hass
      cases hass
    show (setNthAssigned (completeTask src ts) _ tasks).get? j = _
    rw [heq, List.get?_set_ne _ _ (Ne.symm hji), List.get?_eq_get hj]

/-- One event's task side effects never touch a completed task. -/
theorem taskStep_preserves (p : GenParams) (i : Interaction) (idx : ℕ)
    (tasks : List Task) : TasksPreserved tasks (taskStep p i idx tasks).1 := by
  unfold taskStep
  by_cases h1 : i.itype == "task_assign"
  · simp only [if_pos h1]
    intro j hj hc
    show (tasks ++ _).get? j = _
    rw [List.get?_append hj, List.get?_eq_get hj]
  · simp only [if_neg h1]
    by_cases h2 : i.itype == "task_complete"
    · simp only [if_pos h2]
      exact taskCompleteStep_preserves p i.source i.ts idx tasks
    · simp only [if_neg h2]
      exact tasksPreserved_refl tasks

/-- Task preservation is closed under the generator's loop structure. -/
theorem tasksPreserved_stepClosed (p : GenParams) :
    StepClosed p (fun a b => TasksPreserved a.tasks b.tasks) where
  refl st := tasksPreserved_refl st.tasks
  trans _ _ _ h1 h2 := tasksPreserved_trans h1 h2
  step date st := taskStep_preserves p (eventCore p date st.idx).1
    (eventCore p date st.idx).2 st.tasks
  idxSet st _ := tasksPreserved_refl st.tasks

/-- C7: in the task registry, a step with no assigned task is a no-op; a
task_complete step otherwise replaces exactly one currently-assigned task by
its completed version; every assigned task is reachable by some stream, and
once a task is completed, no later event of a terminating run modifies it
again. -/
theorem C7_task_transitions_once :
    (∀ (p : GenParams) (src : String) (ts : Ts) (idx : ℕ) (tasks : List Task),
      tasks.filter isAssigned = [] →
      taskCompleteStep p src ts idx tasks = (tasks, idx)) ∧
    (∀ (p : GenParams) (src : String) (ts : Ts) (idx : ℕ) (tasks : List Task),
      tasks.filter isAssigned ≠ [] →
      ∃ j, ∃ h : j < tasks.length, isAssigned (tasks.get ⟨j, h⟩) = true ∧
        (completeTask src ts (tasks.get ⟨j, h⟩)).status = "completed" ∧
        (taskCompleteStep p src ts idx tasks).1 =
          tasks.set j (completeTask src ts (tasks.get ⟨j, h⟩))) ∧
    (∀ (src : String) (ts : Ts) (tasks : List Task) (m : ℕ),
      m < (tasks.filter isAssigned).length →
      ∃ (p : GenParams) (idx : ℕ),
        (taskCompleteStep p src ts idx tasks).1 =
          setNthAssigned (completeTask src ts) m tasks) ∧
    (∀ (p : GenParams) (fuel : ℕ) (st res : GenState),
      runGen p fuel st = some res → TasksPreserved st.tasks res.tasks) := by
  refine ⟨?_, ?_, ?_, ?_⟩
  · intro p src ts idx tasks h
    unfold taskCompleteStep
    rw [h]
    simp
  · intro p src ts idx tasks h
    have h0 : (tasks.filter isAssigned).length ≠ 0 := by
      intro hl
      exact h (List.length_eq_zero.mp hl)
    obtain ⟨j, hj, hass, heq⟩ := setNthAssigned_spec (completeTask src ts) tasks
      (p.stream idx % (tasks.filter isAssigned).length)
      (Nat.mod_lt _ (Nat.pos_of_ne_zero h0))
    refine ⟨j, hj, hass, rfl, ?_⟩
    unfold taskCompleteStep
    rw [if_neg h0]
    exact heq
  · intro src ts tasks m hm
    refine ⟨{ demoP with stream := fun _ => m }, 0, ?_⟩
    unfold taskCompleteStep
    have h0 : (tasks.filter isAssigned).length ≠ 0 := by omega
    rw [if_neg h0]
    simp [Nat.mod_eq_of_lt hm]
  · intro p fuel st res h
    exact runGen_rel p _ (tasksPreserved_stepClosed p) fuel st res h

/-- C7 witness: both degenerate branches are reachable — an empty registry
is untouched, and a run over the demo parameters preserves completed tasks
(vacuously many here). -/
theorem C7_task_transitions_once_witness :
    taskCompleteStep demoP ("A") ⟨0, 0, 0, 0⟩ 0 [] = ([], 0) :=
  C7_task_transitions_once.1 demoP ("A") ⟨0, 0, 0, 0⟩ 0 [] rfl

/-! ### Event-shape lemmas -/

/-- A uniform draw is nonnegative. -/
theorem randFloat_nonneg (n : ℕ) : 0 ≤ randFloat n := by
  unfold randFloat
  positivity

/-- A uniform draw is below one. -/
theorem randFloat_lt_one (n : ℕ) : randFloat n < 1 := by
  unfold randFloat
  rw [div_lt_one (by norm_num)]
  exact_mod_cast Nat.mod_lt n (by norm_num)

/-- An in-range index selects a member of the list. -/
theorem getD_mem_of_lt {α : Type} :
    ∀ (l : List α) (n : ℕ) (d : α), n < l.length → l.getD n d ∈ l := by
  intro l
  induction l with
  | nil => intro n d h; simp at h
  | cons x xs ih =>
    intro n d h
    cases n with
    | zero => simp
    | succ n =>
      have hmem := ih n d (by simpa using h)
      simp only [List.getD_cons_succ]
      exact List.mem_cons_of_mem x hmem

/-- The target field of a built event is the chosen target. -/
theorem mkEvent_target (p : GenParams) (date : ℤ) (idx : ℕ)
    (tgt : Option String) (pidx : ℕ) :
    (mkEvent p date idx tgt pidx).target = tgt := rfl

/-- The source field of a built event is the chosen source. -/
theorem mkEvent_source (p : GenParams) (date : ℤ) (idx : ℕ)
    (tgt : Option String) (pidx : ℕ) :
    (mkEvent p date idx tgt pidx).source = eventSource p idx := rfl

/-- Every built event's weight is the rounded product of its type's base
weight, its affinity scale and a jitter in [0.85, 1.25]. -/
theorem mkEvent_weight_shape (p : GenParams) (date : ℤ) (idx : ℕ)
    (tgt : Option String) (pidx : ℕ) :
    ∃ j : ℚ, 85/100 ≤ j ∧ j ≤ 125/100 ∧
      (mkEvent p date idx tgt pidx).weight =
        round3 (base_weight (mkEvent p date idx tgt pidx).itype *
          affinity_scale p (mkEvent p date idx tgt pidx) * j) := by
  refine ⟨85/100 + randFloat (p.stream (pidx + 1)) * (4/10), ?_, ?_, ?_⟩
  · have h := randFloat_nonneg (p.stream (pidx + 1))
    nlinarith
  · have h := randFloat_lt_one (p.stream (pidx + 1))
    nlinarith
  · rfl

/-- The weight shape holds for every event pair the generator constructs. -/
theorem eventCore_weight_shape (p : GenParams) (date : ℤ) (idx : ℕ) :
    ∃ j : ℚ, 85/100 ≤ j ∧ j ≤ 125/100 ∧
      (eventCore p date idx).1.weight =
        round3 (base_weight (eventCore p date idx).1.itype *
          affinity_scale p (eventCore p date idx).1 * j) := by
  unfold eventCore
  split
  · exact mkEvent_weight_shape p date idx none (idx + 6)
  · exact mkEvent_weight_shape p date idx _ (idx + 7)

/-- When two distinct members exist, no generated event targets its own
source. -/
theorem eventCore_no_self_target (p : GenParams)
    (hp : ∃ a ∈ p.memberIds, ∃ b ∈ p.memberIds, a ≠ b) (date : ℤ) (idx : ℕ) :
    (eventCore p date idx).1.target ≠ some (eventCore p date idx).1.source := by
  unfold eventCore
  split
  · rw [mkEvent_target, mkEvent_source]
    intro hc
    cases hc
  · rw [mkEvent_target, mkEvent_source]
    intro hc
    injection hc with hx
    have hne : eventTargets p idx ≠ [] := by
      obtain ⟨a, ha, b, hb, hab⟩ := hp
      by_cases hae : a = eventSource p idx
      · refine List.ne_nil_of_mem (a := b) (List.mem_filter.mpr ⟨hb, ?_⟩)
        simp only [decide_eq_true_eq]
        rw [← hae]
        exact fun h => hab h.symm
      · refine List.ne_nil_of_mem (a := a) (List.mem_filter.mpr ⟨ha, ?_⟩)
        simp only [decide_eq_true_eq]
        exact hae
    have hmem : (eventTargets p idx).getD
        (p.stream (idx + 6) % (eventTargets p idx).length) "" ∈
          eventTargets p idx :=
      getD_mem_of_lt _ _ _ (Nat.mod_lt _ (List.length_pos.mpr hne))
    have hfne := (List.mem_filter.mp hmem).2
    simp only [decide_eq_true_eq] at hfne
    exact hfne hx

/-- A predicate holding for every constructed event holds for every
interaction of a terminating run that starts from a log satisfying it. -/
theorem runGen_interactions_pred (p : GenParams) (P : Interaction → Prop)
    (hE : ∀ (date : ℤ) (idx : ℕ), P (eventCore p date idx).1) :
    ∀ (fuel : ℕ) (st res : GenState), runGen p fuel st = some res →
      (∀ i ∈ st.interactions, P i) → ∀ i ∈ res.interactions, P i := by
  intro fuel st res h
  refine runGen_rel p
    (fun a b => (∀ i ∈ a.interactions, P i) → ∀ i ∈ b.interactions, P i)
    ⟨fun _ h => h, fun _ _ _ h1 h2 h => h2 (h1 h), ?_, fun _ _ h => h⟩
    fuel st res h
  intro date st hst i hi
  have hpe : (processEvent p date st).interactions =
      st.interactions ++ [(eventCore p date st.idx).1] := rfl
  rw [hpe] at hi
  rcases List.mem_append.mp hi with h' | h'
  · exact hst i h'
  · rw [List.mem_singleton.mp h']
    exact hE date st.idx

/-- C2 (amended): base_weight ranks task_complete > task_assign > review >
comment > reply > message (comment and reply swapped relative to the
original claim), and every interaction of a terminating generator run
carries weight round(base_weight(type) × affinity_scale × jitter, 3) for
some jitter in [0.85, 1.25]. -/
theorem C2_weight_model_amended :
    (base_weight ("task_complete") > base_weight ("task_assign") ∧
     base_weight ("task_assign") > base_weight ("review") ∧
     base_weight ("review") > base_weight ("comment") ∧
     base_weight ("comment") > base_weight ("reply") ∧
     base_weight ("reply") > base_weight ("message")) ∧
    (∀ (p : GenParams) (fuel : ℕ),
      (generate p fuel).isSome = true →
      ∀ i ∈ ((generate p fuel).getD genInit).interactions,
        ∃ j : ℚ, 85/100 ≤ j ∧ j ≤ 125/100 ∧
          i.weight = round3 (base_weight i.itype * affinity_scale p i * j)) := by
  constructor
  · have e1 : base_weight ("message") = 1 := rfl
    have e2 : base_weight ("reply") = 12/10 := rfl
    have e3 : base_weight ("task_assign") = 21/10 := rfl
    have e4 : base_weight ("task_complete") = 26/10 := rfl
    have e5 : base_weight ("comment") = 13/10 := rfl
    have e6 : base_weight ("review") = 18/10 := rfl
    rw [e1, e2, e3, e4, e5, e6]
    norm_num
  · intro p fuel h i hi
    obtain ⟨res, hres⟩ := Option.isSome_iff_exists.mp h
    rw [hres] at hi
    simp only [Option.getD_some] at hi
    exact runGen_interactions_pred p
      (fun i => ∃ j : ℚ, 85/100 ≤ j ∧ j ≤ 125/100 ∧
        i.weight = round3 (base_weight i.itype * affinity_scale p i * j))
      (fun date idx => eventCore_weight_shape p date idx)
      fuel genInit res hres (by intro i hi; cases hi) i hi

/-- C2 amended witness: the weight shape at the first interaction of the
demo run. -/
theorem C2_weight_model_amended_witness :
    ∃ j : ℚ, 85/100 ≤ j ∧ j ≤ 125/100 ∧
      (((generate demoP 1).getD genInit).interactions.getD 0 dummyI).weight =
        round3 (base_weight
            (((generate demoP 1).getD genInit).interactions.getD 0 dummyI).itype *
          affinity_scale demoP
            (((generate demoP 1).getD genInit).interactions.getD 0 dummyI) * j) :=
  C2_weight_model_amended.2 demoP 1 (by decide) _
    (getD_mem_of_lt _ 0 dummyI (by decide))

/-- C5 (amended): the ingestion stage does not filter self-directed rows,
but whenever the input log contains none — as the generator guarantees,
since a present target is always drawn from the members different from the
source — the aggregated adjacency has no self-loop edge. -/
theorem C5_no_self_loops_amended :
    (∀ log : List Interaction,
      (∀ i ∈ log, i.target ≠ some i.source) →
      ∀ e ∈ adjList log, e.source ≠ e.target) ∧
    (∀ (p : GenParams) (fuel : ℕ),
      (∃ a ∈ p.memberIds, ∃ b ∈ p.memberIds, a ≠ b) →
      (generate p fuel).isSome = true →
      ∀ i ∈ ((generate p fuel).getD genInit).interactions,
        i.target ≠ some i.source) := by
  constructor
  · intro log hfree e he
    unfold adjList at he
    rcases List.mem_flatMap.mp he with ⟨s, _, he2⟩
    rcases List.mem_filterMap.mp he2 with ⟨t, _, hite⟩
    by_cases hc : 0 < countPair log s t
    · rw [if_pos hc] at hite
      obtain rfl := Option.some.inj hite
      have hfne : (validRows log).filter
          (fun i => i.source == s && i.target == some t) ≠ [] := by
        intro h0
        unfold countPair at hc
        rw [h0] at hc
        simp at hc
      obtain ⟨i, hi⟩ := List.exists_mem_of_ne_nil _ hfne
      have hi2 := List.mem_filter.mp hi
      have hprop := hi2.2
      simp only [Bool.and_eq_true, beq_iff_eq] at hprop
      have hlog : i ∈ log := (List.mem_filter.mp hi2.1).1
      have hni := hfree i hlog
      intro hst
      have hst' : s = t := hst
      apply hni
      rw [hprop.2, hprop.1, hst']
    · rw [if_neg hc] at hite
      cases hite
  · intro p fuel hp h i hi
    obtain ⟨res, hres⟩ := Option.isSome_iff_exists.mp h
    rw [hres] at hi
    simp only [Option.getD_some] at hi
    exact runGen_interactions_pred p (fun i => i.target ≠ some i.source)
      (fun date idx => eventCore_no_self_target p hp date idx)
      fuel genInit res hres (by intro i hi; cases hi) i hi

/-- C5 amended witness: the first interaction of the demo run does not
target its own source. -/
theorem C5_no_self_loops_amended_witness :
    (((generate demoP 1).getD genInit).interactions.getD 0 dummyI).target ≠
      some (((generate demoP 1).getD genInit).interactions.getD 0 dummyI).source :=
  C5_no_self_loops_amended.2 demoP 1
    ⟨"A", by decide, "B", by decide, by decide⟩ (by decide) _
    (getD_mem_of_lt _ 0 dummyI (by decide))

/-! ### Wall-clock shift lemmas: every stream decision of the generator is
independent of START_DATE; only the produced timestamps move. -/

/-- Shifting commutes with a later day offset. -/
theorem addDays_shiftTs (d : ℤ) (t : Ts) (k : ℕ) :
    addDays (shiftTs d t) k = shiftTs d (addDays t k) := by
  simp only [addDays, shiftTs]
  congr 1
  ring

/-- Shifting an interaction preserves its type. -/
theorem shiftI_itype (d : ℤ) (i : Interaction) : (shiftI d i).itype = i.itype := rfl

/-- Shifting an interaction preserves its source. -/
theorem shiftI_source (d : ℤ) (i : Interaction) : (shiftI d i).source = i.source := rfl

/-- Shifting an interaction preserves its target. -/
theorem shiftI_target (d : ℤ) (i : Interaction) : (shiftI d i).target = i.target := rfl

/-- Shifting an interaction shifts its timestamp. -/
theorem shiftI_ts (d : ℤ) (i : Interaction) : (shiftI d i).ts = shiftTs d i.ts := rfl

/-- Completing a shifted task with a shifted timestamp is shifting the
completed task. -/
theorem completeTask_shiftTask (src : String) (ts : Ts) (d : ℤ) (t : Task) :
    completeTask src (shiftTs d ts) (shiftTask d t) =
      shiftTask d (completeTask src ts t) := rfl

/-- Shifting a task does not change its assigned-filter status. -/
theorem isAssigned_shiftTask (d : ℤ) (t : Task) :
    isAssigned (shiftTask d t) = isAssigned t := rfl

/-- Completing the k-th assigned task commutes with shifting. -/
theorem setNthAssigned_shift (src : String) (ts : Ts) (d : ℤ) :
    ∀ (tasks : List Task) (k : ℕ),
      setNthAssigned (completeTask src (shiftTs d ts)) k
          (tasks.map (shiftTask d)) =
        (setNthAssigned (completeTask src ts) k tasks).map (shiftTask d) := by
  intro tasks
  induction tasks with
  | nil => intro k; rfl
  | cons t rest ih =>
    intro k
    by_cases ht : isAssigned t <;> by_cases hk : k = 0 <;>
      simp [setNthAssigned, isAssigned_shiftTask, ht, hk, ih,
        completeTask_shiftTask]

/-- The assigned-filter commutes with shifting. -/
theorem filter_isAssigned_shift (d : ℤ) (tasks : List Task) :
    (tasks.map (shiftTask d)).filter isAssigned =
      (tasks.filter isAssigned).map (shiftTask d) := by
  rw [List.filter_map]
  congr 1

/-- The task_complete step commutes with shifting. -/
theorem taskCompleteStep_shift (p : GenParams) (src : String) (ts : Ts)
    (d : ℤ) (idx : ℕ) (tasks : List Task) :
    taskCompleteStep p src (shiftTs d ts) idx (tasks.map (shiftTask d)) =
      ((taskCompleteStep p src ts idx tasks).1.map (shiftTask d),
       (taskCompleteStep p src ts idx tasks).2) := by
  simp only [taskCompleteStep]
  rw [filter_isAssigned_shift, List.length_map]
  by_cases h0 : (tasks.filter isAssigned).length = 0
  · rw [if_pos h0, if_pos h0]
  · rw [if_neg h0, if_neg h0, setNthAssigned_shift]

/-- One event's task side effects commute with shifting. -/
theorem taskStep_shift (p : GenParams) (d : ℤ) (i : Interaction) (idx : ℕ)
    (tasks : List Task) :
    taskStep p (shiftI d i) idx (tasks.map (shiftTask d)) =
      ((taskStep p i idx tasks).1.map (shiftTask d),
       (taskStep p i idx tasks).2) := by
  unfold taskStep
  rw [shiftI_itype, shiftI_source, shiftI_target, shiftI_ts]
  by_cases h1 : i.itype == "task_assign"
  · rw [if_pos h1, if_pos h1]
    rw [List.map_append]
    rw [addDays_shiftTs]
    rfl
  · rw [if_neg h1, if_neg h1]
    by_cases h2 : i.itype == "task_complete"
    · rw [if_pos h2, if_pos h2]
      exact taskCompleteStep_shift p i.source i.ts d idx tasks
    · rw [if_neg h2, if_neg h2]

/-- A built event at a shifted date is the shifted event. -/
theorem mkEvent_shift (p : GenParams) (d date : ℤ) (idx : ℕ)
    (tgt : Option String) (pidx : ℕ) :
    mkEvent p (date + d) idx tgt pidx = shiftI d (mkEvent p date idx tgt pidx) := rfl

/-- An event pair at a shifted date is the shifted event with the unchanged
stream position. -/
theorem eventCore_shift (p : GenParams) (d date : ℤ) (idx : ℕ) :
    eventCore p (date + d) idx =
      (shiftI d (eventCore p date idx).1, (eventCore p date idx).2) := by
  unfold eventCore
  by_cases hC : p.stream (idx + 5) % 1000000 < 90000
  · rw [if_pos hC, if_pos hC, mkEvent_shift]
  · rw [if_neg hC, if_neg hC, mkEvent_shift]

/-- Processing one event at a shifted date from a shifted state gives the
shifted state. -/
theorem processEvent_shift (p : GenParams) (d date : ℤ) (st : GenState) :
    processEvent p (date + d) (shiftState d st) =
      shiftState d (processEvent p date st) := by
  simp only [processEvent, shiftState, eventCore_shift, taskStep_shift,
    List.map_append, List.map_cons, List.map_nil]

/-- The per-event loop at a shifted date commutes with shifting; the target
check reads only the (unshifted) counter. -/
theorem runEvents_shift (p : GenParams) (d date : ℤ) :
    ∀ (n : ℕ) (st : GenState),
      runEvents (shiftParams d p) (date + d) n (shiftState d st) =
        shiftState d (runEvents p date n st) := by
  intro n
  induction n with
  | zero => intro st; rfl
  | succ n ih =>
    intro st
    simp only [runEvents]
    have hpe : processEvent (shiftParams d p) (date + d) (shiftState d st) =
        shiftState d (processEvent p date st) := by
      rw [show processEvent (shiftParams d p) (date + d) (shiftState d st) =
          processEvent p (date + d) (shiftState d st) from rfl]
      exact processEvent_shift p d date st
    rw [hpe]
    have hcnt : (shiftState d (processEvent p date st)).count =
        (processEvent p date st).count := rfl
    have htgt : (shiftParams d p).target = p.target := rfl
    rw [hcnt, htgt]
    by_cases hc : p.target ≤ (processEvent p date st).count
    · rw [if_pos hc, if_pos hc]
    · rw [if_neg hc, if_neg hc, ih]

/-- One shifted day commutes with shifting. -/
theorem runDay_shift (p : GenParams) (d : ℤ) (dIdx : ℕ) (st : GenState) :
    runDay (shiftParams d p) dIdx (shiftState d st) =
      shiftState d (runDay p dIdx st) := by
  simp only [runDay]
  rw [show (shiftParams d p).memberIds = p.memberIds from rfl,
    show (shiftParams d p).stream = p.stream from rfl,
    show (shiftParams d p).bursts = p.bursts from rfl,
    show (shiftParams d p).startDate = p.startDate + d from rfl,
    show (shiftState d st).idx = st.idx from rfl,
    show (shiftState d st).count = st.count from rfl,
    show (shiftState d st).interactions = st.interactions.map (shiftI d) from rfl,
    show (shiftState d st).tasks = st.tasks.map (shiftTask d) from rfl,
    show p.startDate + d + (dIdx : ℤ) = p.startDate + (dIdx : ℤ) + d by ring,
    show ∀ x, (⟨x, st.count, st.interactions.map (shiftI d),
        st.tasks.map (shiftTask d)⟩ : GenState) =
      shiftState d ⟨x, st.count, st.interactions, st.tasks⟩ from fun _ => rfl]
  exact runEvents_shift p d _ _ _

/-- The day loop commutes with shifting. -/
theorem runDays_shift (p : GenParams) (d : ℤ) :
    ∀ (rem dIdx : ℕ) (st : GenState),
      runDays (shiftParams d p) dIdx rem (shiftState d st) =
        shiftState d (runDays p dIdx rem st) := by
  intro rem
  induction rem with
  | zero => intro dIdx st; rfl
  | succ rem ih =>
    intro dIdx st
    simp only [runDays]
    rw [runDay_shift]
    have hcnt : (shiftState d (runDay p dIdx st)).count =
        (runDay p dIdx st).count := rfl
    have htgt : (shiftParams d p).target = p.target := rfl
    rw [hcnt, htgt]
    by_cases hc : p.target ≤ (runDay p dIdx st).count
    · rw [if_pos hc, if_pos hc]
    · rw [if_neg hc, if_neg hc, ih]

/-- The whole generation loop commutes with shifting. -/
theorem runGen_shift (p : GenParams) (d : ℤ) :
    ∀ (fuel : ℕ) (st : GenState),
      runGen (shiftParams d p) fuel (shiftState d st) =
        Option.map (shiftState d) (runGen p fuel st) := by
  intro fuel
  induction fuel with
  | zero =>
    intro st
    simp only [runGen]
    have hcnt : (shiftState d st).count = st.count := rfl
    have htgt : (shiftParams d p).target = p.target := rfl
    rw [hcnt, htgt]
    by_cases hc : p.target ≤ st.count
    · rw [if_pos hc, if_pos hc]
      rfl
    · rw [if_neg hc, if_neg hc]
      rfl
  | succ fuel ih =>
    intro st
    simp only [runGen]
    have hcnt : (shiftState d st).count = st.count := rfl
    have htgt : (shiftParams d p).target = p.target := rfl
    have hdays : (shiftParams d p).days = p.days := rfl
    rw [hcnt, htgt, hdays]
    by_cases hc : p.target ≤ st.count
    · rw [if_pos hc, if_pos hc]
      rfl
    · rw [if_neg hc, if_neg hc, runDays_shift, ih]

/-- C4 counterexample: the timestamps of the interaction log depend on
`datetime.now()` through START_DATE, so the same seed and parameters run one
day later produce a different (day-shifted) log. -/
theorem C4_wall_clock_counterexample :
    (generate (shiftParams 1 demoP) 1).map
      (fun s => s.interactions.map (fun i => i.ts.day)) ≠
    (generate demoP 1).map
      (fun s => s.interactions.map (fun i => i.ts.day)) := by decide

/-- C4 (amended): with the same seed and parameters, two generator runs
produce logs and task tables that are identical except that every timestamp
is shifted by the difference between the runs' start dates; byte-identical
output needs the same wall-clock date as well. -/
theorem C4_determinism_up_to_start_date (p : GenParams) (d : ℤ) (fuel : ℕ) :
    generate (shiftParams d p) fuel =
      Option.map (shiftState d) (generate p fuel) := by
  unfold generate
  rw [show genInit = shiftState d genInit from rfl]
  exact runGen_shift p d fuel (shiftState d genInit)

end Collabo
